import Mathlib

/-!
Shallow embedding of the core of `dannect-unity-toolkit`:
the VCS adapter (`run_git_command`), the branch resolver
(`get_all_branches`, `find_deepest_branch`, `get_target_branch`,
`get_branch_hierarchy_info`), the commit action
(`commit_and_push_changes`, `checkout_or_create_branch`) from
`src/dannect_toolkit/managers/git.py`, and the execution strategies and
workflow engine (`execute_action`, `_execute_sequential`,
`_execute_parallel`, `_execute_full_automation_workflow`) from
`src/dannect_toolkit/core/toolkit.py` together with
`UnityProjectConfig.is_valid` from `src/dannect_toolkit/core/config.py`.

External effects (the OS process launcher and the filesystem) are
modelled as explicit oracles passed to each function; each git-issuing
function additionally returns the list of git command lines it issued,
in order, so that control-flow claims ("command X is never issued") are
statable.

The Python string primitives used by the source (`str.strip`,
`str.split('\n')`, `str.startswith`, `str.replace`, `x in s`,
`str.isdigit` / `int`) are modelled by structurally recursive functions
over `List Char` (`pyStrip`, `pySplitNl`, `pyStartsWith`, `pyReplace`,
`pyInStr`, `pyInt`) so that every definition evaluates inside the
kernel on concrete inputs.
-/

/-- Python `s.strip()` (ASCII whitespace): drop leading and trailing
whitespace. -/
def pyStrip (s : String) : String :=
  ⟨((s.toList.dropWhile Char.isWhitespace).reverse.dropWhile
      Char.isWhitespace).reverse⟩

def splitNlAux : List Char → List (List Char)
  | [] => [[]]
  | x :: xs =>
    match splitNlAux xs with
    | [] => [[]]
    | cur :: rest => if x = '\n' then [] :: cur :: rest else (x :: cur) :: rest

/-- Python `s.split('\n')`. -/
def pySplitNl (s : String) : List String :=
  (splitNlAux s.toList).map (fun l => ⟨l⟩)

/-- Python `s.startswith(pre)`. -/
def pyStartsWith (pre s : String) : Bool :=
  pre.toList.isPrefixOf s.toList

def replaceFuel (pat rep : List Char) : Nat → List Char → List Char
  | 0, s => s
  | _ + 1, [] => []
  | fuel + 1, c :: rest =>
    if pat ≠ [] ∧ pat.isPrefixOf (c :: rest) then
      rep ++ replaceFuel pat rep fuel ((c :: rest).drop pat.length)
    else
      c :: replaceFuel pat rep fuel rest

/-- Python `s.replace(pat, rep)` for a non-empty pattern: replace all
non-overlapping occurrences, scanning left to right. -/
def pyReplace (s pat rep : String) : String :=
  ⟨replaceFuel pat.toList rep.toList s.toList.length s.toList⟩

def digitsVal (l : List Char) : Nat :=
  l.foldl (fun n c => n * 10 + (c.toNat - 48)) 0

/-- Python `int(s) if s.isdigit() else 0` on ASCII git output. -/
def pyInt (s : String) : Nat :=
  if s.toList ≠ [] ∧ s.toList.all Char.isDigit then digitsVal s.toList else 0

def listContains (pat : List Char) : List Char → Bool
  | [] => pat.isPrefixOf []
  | c :: rest => pat.isPrefixOf (c :: rest) || listContains pat rest

/-- Python `needle in haystack` substring test. -/
def pyInStr (needle haystack : String) : Bool :=
  listContains needle.toList haystack.toList

/-- Outcome of `subprocess.run` as observed by `run_git_command`
(git.py lines 23-35): either the process completed with an exit code and
captured output, or an exception was raised (spawn error, timeout, ...). -/
inductive SubprocessOutcome where
  | completed (returncode : Int) (stdout stderr : String)
  | raised (message : String)
deriving DecidableEq, Repr

/-- `GitAutomationManager.run_git_command` (git.py lines 20-35): returns
`(returncode == 0, stdout.strip(), stderr.strip())` on completion and
`(False, "", str(e))` when the subprocess call raised. -/
def run_git_command : SubprocessOutcome → Bool × String × String
  | .completed rc out err => (rc == 0, pyStrip out, pyStrip err)
  | .raised msg => (false, "", msg)

/-- Environment for one project root: whether `<root>/.git` exists
(`is_git_repository`), and the subprocess outcome of every git command
line run in that root. -/
structure GitEnv where
  isRepo : Bool
  raw : String → SubprocessOutcome

/-- Run one git command line in the environment through
`run_git_command`. -/
def runGit (env : GitEnv) (cmd : String) : Bool × String × String :=
  run_git_command (env.raw cmd)

/-- `GitAutomationManager.DEFAULT_BRANCH` (git.py line 17). -/
def DEFAULT_BRANCH : String := "main"

/-- `GitAutomationManager.DEV_BRANCH` (git.py line 18). -/
def DEV_BRANCH : String := "dev"

def branchACmd : String := "git branch -a"

def statusCmd : String := "git status --porcelain"

def addCmd : String := "git add ."

def revListCmd (branch : String) : String := "git rev-list --count " ++ branch

def logCmd (branch : String) : String := "git log -1 --format=%ct " ++ branch

def checkoutCmd (branch : String) : String := "git checkout " ++ branch

def checkoutCreateCmd (branch : String) : String := "git checkout -b " ++ branch

def commitCmd (msg : String) : String := "git commit -m \"" ++ msg ++ "\""

def pushCmd (branch : String) : String := "git push -u origin " ++ branch

/-- Loop body of `get_all_branches` (git.py lines 80-88): per line,
strip it, skip empty lines and lines starting with `*`, delete
`remotes/origin/` and strip again, and append the result unless it is
empty, already collected, or starts with `HEAD`. -/
def get_all_branches_loop : List String → List String → List String
  | [], acc => acc
  | line :: rest, acc =>
    let t := pyStrip line
    if t ≠ "" ∧ ¬ pyStartsWith "*" t then
      let b := pyStrip (pyReplace t "remotes/origin/" "")
      if b ≠ "" ∧ b ∉ acc ∧ ¬ pyStartsWith "HEAD" b then
        get_all_branches_loop rest (acc ++ [b])
      else
        get_all_branches_loop rest acc
    else
      get_all_branches_loop rest acc

/-- `GitAutomationManager.get_all_branches` (git.py lines 73-89):
run `git branch -a` and collect branch names from its stdout; return
`[]` when the command fails.  Second component: issued commands. -/
def get_all_branches (env : GitEnv) : List String × List String :=
  let r := runGit env branchACmd
  if r.1 then (get_all_branches_loop (pySplitNl r.2.1) [], [branchACmd])
  else ([], [branchACmd])

/-- `GitAutomationManager.get_branch_hierarchy_info` (git.py lines
123-143): commit count via `git rev-list --count`, then last commit
Unix time via `git log -1 --format=%ct`; a failed fetch contributes 0.
Second component: issued commands. -/
def get_branch_hierarchy_info (env : GitEnv) (branch : String) :
    (Nat × Nat) × List String :=
  let r1 := runGit env (revListCmd branch)
  if ¬ r1.1 then ((0, 0), [revListCmd branch])
  else
    let r2 := runGit env (logCmd branch)
    if ¬ r2.1 then ((pyInt r1.2.1, 0), [revListCmd branch, logCmd branch])
    else ((pyInt r1.2.1, pyInt r2.2.1), [revListCmd branch, logCmd branch])

/-- Loop of `find_deepest_branch` (git.py lines 102-119): running state
`(max_commits, latest_time, deepest_branch)`, updated whenever a
candidate's `(commit_count, last_commit_time)` pair is lexicographically
greater than the running pair. -/
def find_deepest_loop (info : String → Nat × Nat) :
    List String → Nat → Nat → Option String → Option String
  | [], _, _, best => best
  | b :: rest, max_commits, latest_time, best =>
    let cc := (info b).1
    let lt := (info b).2
    if cc > max_commits ∨ (cc = max_commits ∧ lt > latest_time) then
      find_deepest_loop info rest cc lt (some b)
    else
      find_deepest_loop info rest max_commits latest_time best

/-- `GitAutomationManager.find_deepest_branch` (git.py lines 91-121),
with the per-candidate metrics supplied by the VCS adapter abstracted
into `info`: drop `main`, then scan candidates with the
lexicographic-improvement loop starting from `(0, 0, None)`. -/
def find_deepest_branch (info : String → Nat × Nat) (branches : List String) :
    Option String :=
  if branches.isEmpty then none
  else
    let filtered := branches.filter (fun b => b ≠ DEFAULT_BRANCH)
    if filtered.isEmpty then none
    else find_deepest_loop info filtered 0 0 none

/-- The git commands issued by a `find_deepest_branch` call (one
`get_branch_hierarchy_info` per surviving candidate, in order). -/
def find_deepest_trace (env : GitEnv) (branches : List String) : List String :=
  if branches.isEmpty then []
  else
    let filtered := branches.filter (fun b => b ≠ DEFAULT_BRANCH)
    if filtered.isEmpty then []
    else filtered.flatMap (fun b => (get_branch_hierarchy_info env b).2)

/-- Metrics of a branch as `find_deepest_branch` obtains them inside
`get_target_branch`. -/
def branchInfo (env : GitEnv) (b : String) : Nat × Nat :=
  (get_branch_hierarchy_info env b).1

/-- `GitAutomationManager.get_target_branch` (git.py lines 53-71):
return the deepest branch when the resolver yields a truthy name
(Python `if deepest_branch:`), otherwise `dev` — both the
`dev in branches` arm (line 65) and the final fallback (line 71)
return `DEV_BRANCH`.  Second component: issued commands. -/
def get_target_branch (env : GitEnv) : String × List String :=
  let ab := get_all_branches env
  let tr := ab.2 ++ find_deepest_trace env ab.1
  match find_deepest_branch (branchInfo env) ab.1 with
  | some b => if b ≠ "" then (b, tr) else (DEV_BRANCH, tr)
  | none => (DEV_BRANCH, tr)

/-- stderr test of git.py line 217: `"did not match any file" in stderr
or "pathspec" in stderr`. -/
def branch_missing_error (stderr : String) : Bool :=
  pyInStr "did not match any file" stderr || pyInStr "pathspec" stderr

/-- `GitAutomationManager.checkout_or_create_branch` (git.py lines
204-231): one checkout attempt; on failure, one create-and-checkout
attempt if and only if stderr indicates a missing branch.  Second
component: issued commands. -/
def checkout_or_create_branch (env : GitEnv) (branch : String) :
    Bool × List String :=
  let r1 := runGit env (checkoutCmd branch)
  if r1.1 then (true, [checkoutCmd branch])
  else if branch_missing_error r1.2.2 then
    let r2 := runGit env (checkoutCreateCmd branch)
    (r2.1, [checkoutCmd branch, checkoutCreateCmd branch])
  else (false, [checkoutCmd branch])

/-- `GitAutomationManager.commit_and_push_changes` (git.py lines
145-202): repo check, status check (clean tree is a successful no-op),
branch resolution, checkout-or-create, stage, commit, then push whose
failure is only a warning.  Second component: issued commands. -/
def commit_and_push_changes (env : GitEnv) (msg : String) :
    Bool × List String :=
  if ¬ env.isRepo then (false, [])
  else
    let st := runGit env statusCmd
    if ¬ st.1 then (false, [statusCmd])
    else if pyStrip st.2.1 = "" then (true, [statusCmd])
    else
      let tgt := get_target_branch env
      let co := checkout_or_create_branch env tgt.1
      if ¬ co.1 then (false, statusCmd :: tgt.2 ++ co.2)
      else
        let ad := runGit env addCmd
        if ¬ ad.1 then (false, statusCmd :: tgt.2 ++ co.2 ++ [addCmd])
        else
          let cm := runGit env (commitCmd msg)
          if ¬ cm.1 then
            (false, statusCmd :: tgt.2 ++ co.2 ++ [addCmd, commitCmd msg])
          else
            (true,
             statusCmd :: tgt.2 ++ co.2 ++ [addCmd, commitCmd msg, pushCmd tgt.1])

/-- `ActionType` (core/enums.py lines 11-42). -/
inductive ActionType where
  | ALL_TEST | CREATE_BUTTON | TEST_BUTTON | DEBUG_POPUP | CHECK_EVENTS
  | PROJECT_INFO | BUILD_WEBGL | BUILD_WEBGL_PARALLEL | CLEAN_BUILDS
  | PACKAGE_UPDATE | PACKAGE_FORCE_UPDATE | GIT_COMMIT | GIT_AUTO_BRANCH
  | UNITY_BATCH | UNITY_BATCH_PARALLEL | ADD_SYSTEM_METHOD | CREATE_CONFIG
  | CREATE_PROJECTS_FILE | SAVE_PROJECT_LIST
deriving DecidableEq, Repr

/-- `DannectUnityToolkit._execute_single_action` (toolkit.py lines
106-131): dispatch the action and catch any exception, turning it into
`False`.  The raw unit of work is abstracted as
`act : α → Option Bool`, `none` meaning it raised. -/
def execute_single_action {α : Type} (act : α → Option Bool) (p : α) : Bool :=
  (act p).getD false

/-- `DannectUnityToolkit._execute_sequential` (toolkit.py lines 74-83):
run every project in input order, count successes, and succeed iff the
count equals the project count. -/
def execute_sequential {α : Type} (act : α → Option Bool)
    (projects : List α) : Bool :=
  projects.countP (fun p => execute_single_action act p) == projects.length

/-- `DannectUnityToolkit._execute_parallel` (toolkit.py lines 85-104):
one future per project, results consumed in completion order
(`completed`, a permutation of `projects`), successes counted, success
iff the count equals the input project count. -/
def execute_parallel {α : Type} (act : α → Option Bool)
    (completed projects : List α) : Bool :=
  completed.countP (fun p => execute_single_action act p) == projects.length

/-- `UnityProjectConfig.is_valid` (core/config.py lines 32-38) over a
filesystem-existence oracle `fs`: the project root, `Assets` and
`ProjectSettings` must all exist. -/
def is_valid (fs : String → Bool) (path : String) : Bool :=
  fs path && fs (path ++ "/Assets") && fs (path ++ "/ProjectSettings")

/-- `DannectUnityToolkit.execute_action` (toolkit.py lines 34-58):
empty input fails; paths failing `is_valid` are dropped with a warning;
no valid project fails; otherwise the parallel strategy is used exactly
when requested and more than one valid project remains.  `sched` gives
the completion order the thread pool happens to produce. -/
def execute_action (fs : String → Bool) (act : String → Option Bool)
    (sched : List String → List String) (projects : List String)
    (parallel : Bool) : Bool :=
  if projects.isEmpty then false
  else
    let project_configs := projects.filter (is_valid fs)
    if project_configs.isEmpty then false
    else if parallel && project_configs.length > 1 then
      execute_parallel act (sched project_configs) project_configs
    else
      execute_sequential act project_configs

/-- Step loop shared by the workflow runners (toolkit.py lines 144-148,
161-163, 175-177): run steps in order with their per-step aggregate
result (`res`, indexed by step position), stop at the first failing
step returning `False`, return `True` after the last step.  Also
returns the indices of the steps that were executed, in order. -/
def run_workflow_steps (res : Nat → Bool) :
    List ActionType → Nat → Bool × List Nat
  | [], _ => (true, [])
  | _ :: rest, i =>
    if res i then
      let r := run_workflow_steps res rest (i + 1)
      (r.1, i :: r.2)
    else (false, [i])

/-- Step list of `_execute_full_automation_workflow` (toolkit.py lines
135-142). -/
def full_automation_actions : List ActionType :=
  [.PACKAGE_UPDATE, .ALL_TEST, .ADD_SYSTEM_METHOD, .CREATE_BUTTON,
   .BUILD_WEBGL, .GIT_COMMIT]

/-- `DannectUnityToolkit._execute_full_automation_workflow` (toolkit.py
lines 133-151), with the aggregate result of each `execute_action` call
abstracted by step position. -/
def execute_full_automation_workflow (res : Nat → Bool) : Bool × List Nat :=
  run_workflow_steps res full_automation_actions 0

/-- The strict comparison of git.py lines 115-116: more commits, or
equally many commits and a strictly more recent last commit. -/
def lexGt (a b : Nat × Nat) : Prop :=
  a.1 > b.1 ∨ (a.1 = b.1 ∧ a.2 > b.2)

instance (a b : Nat × Nat) : Decidable (lexGt a b) :=
  inferInstanceAs (Decidable (_ ∨ _))

theorem lexGt_irrefl (a : Nat × Nat) : ¬ lexGt a a := by
  unfold lexGt; omega

theorem lexGt_trans {a b c : Nat × Nat} (h1 : lexGt a b) (h2 : lexGt b c) :
    lexGt a c := by
  unfold lexGt at *; omega

theorem find_deepest_loop_none (info : String → Nat × Nat) :
    ∀ (l : List String) (mc lt : Nat) (best : Option String),
      (∀ c ∈ l, ¬ lexGt (info c) (mc, lt)) →
      find_deepest_loop info l mc lt best = best := by
  intro l
  induction l with
  | nil => intro mc lt best _; rfl
  | cons b rest ih =>
    intro mc lt best h
    have hb : ¬ lexGt (info b) (mc, lt) := h b (List.mem_cons_self b rest)
    unfold lexGt at hb
    simp only [find_deepest_loop]
    rw [if_neg (by simpa using hb)]
    exact ih mc lt best (fun c hc => h c (List.mem_cons_of_mem b hc))

theorem find_deepest_loop_wins (info : String → Nat × Nat) :
    ∀ (l : List String) (mc lt : Nat) (best : Option String),
      (∃ c ∈ l, lexGt (info c) (mc, lt)) →
      ∃ b ∈ l, find_deepest_loop info l mc lt best = some b ∧
        lexGt (info b) (mc, lt) ∧ ∀ c ∈ l, ¬ lexGt (info c) (info b) := by
  intro l
  induction l with
  | nil => intro mc lt best h; simp at h
  | cons b rest ih =>
    intro mc lt best h
    by_cases hb : lexGt (info b) (mc, lt)
    · have hstep :
          find_deepest_loop info (b :: rest) mc lt best
            = find_deepest_loop info rest (info b).1 (info b).2 (some b) := by
        simp only [find_deepest_loop]
        rw [if_pos]
        have hb' := hb; unfold lexGt at hb'; simpa using hb'
      by_cases hrest : ∃ c ∈ rest, lexGt (info c) (info b)
      · obtain ⟨b', hb'mem, hb'eq, hb'gt, hb'max⟩ :=
          ih (info b).1 (info b).2 (some b) (by simpa using hrest)
        refine ⟨b', List.mem_cons_of_mem b hb'mem, ?_, ?_, ?_⟩
        · rw [hstep]; simpa using hb'eq
        · exact lexGt_trans (by simpa using hb'gt) hb
        · intro c hc
          rcases List.mem_cons.mp hc with rfl | hc'
          · intro hcb'
            exact lexGt_irrefl (info c)
              (lexGt_trans hcb' (by simpa using hb'gt))
          · exact hb'max c hc'
      · push_neg at hrest
        have hnone :
            find_deepest_loop info rest (info b).1 (info b).2 (some b)
              = some b :=
          find_deepest_loop_none info rest (info b).1 (info b).2 (some b)
            (by simpa using hrest)
        refine ⟨b, List.mem_cons_self b rest, ?_, hb, ?_⟩
        · rw [hstep, hnone]
        · intro c hc
          rcases List.mem_cons.mp hc with rfl | hc'
          · exact lexGt_irrefl (info c)
          · exact hrest c hc'
    · have hstep :
          find_deepest_loop info (b :: rest) mc lt best
            = find_deepest_loop info rest mc lt best := by
        simp only [find_deepest_loop]
        rw [if_neg]
        have hb' := hb; unfold lexGt at hb'; simpa using hb'
      obtain ⟨c, hcmem, hcgt⟩ := h
      have hcrest : c ∈ rest := by
        rcases List.mem_cons.mp hcmem with rfl | hc'
        · exact absurd hcgt hb
        · exact hc'
      obtain ⟨b', hb'mem, hb'eq, hb'gt, hb'max⟩ :=
        ih mc lt best ⟨c, hcrest, hcgt⟩
      refine ⟨b', List.mem_cons_of_mem b hb'mem, ?_, hb'gt, ?_⟩
      · rw [hstep]; exact hb'eq
      · intro d hd
        rcases List.mem_cons.mp hd with rfl | hd'
        · intro hdb'
          exact hb (lexGt_trans hdb' hb'gt)
        · exact hb'max d hd'

/-- C1 (amended): when at least one non-trunk candidate scores strictly
above the loop's initial `(0, 0)` state in the lexicographic order
(commit count first, then last-commit timestamp), `find_deepest_branch`
returns a non-trunk candidate whose commit count is maximal, with ties
in commit count broken by maximal last-commit timestamp.  (As stated in
the claim — without that proviso — the property fails: see the
counterexample, where every candidate scores `(0, 0)` and the resolver
returns none of them.) -/
theorem find_deepest_branch_lex_max (info : String → Nat × Nat)
    (branches : List String)
    (h : ∃ c ∈ branches.filter (fun b => b ≠ DEFAULT_BRANCH),
           lexGt (info c) (0, 0)) :
    ∃ b ∈ branches.filter (fun b => b ≠ DEFAULT_BRANCH),
      find_deepest_branch info branches = some b ∧
      ∀ c ∈ branches.filter (fun b => b ≠ DEFAULT_BRANCH),
        (info c).1 ≤ (info b).1 ∧
        ((info c).1 = (info b).1 → (info c).2 ≤ (info b).2) := by
  obtain ⟨c, hc, hcgt⟩ := h
  have h1 : branches.isEmpty = false := by
    cases branches with
    | nil => simp at hc
    | cons x xs => rfl
  have h2 : (branches.filter (fun b => b ≠ DEFAULT_BRANCH)).isEmpty = false := by
    cases hf : branches.filter (fun b => b ≠ DEFAULT_BRANCH) with
    | nil => rw [hf] at hc; simp at hc
    | cons x xs => rfl
  obtain ⟨b, hbmem, hbeq, _, hbmax⟩ :=
    find_deepest_loop_wins info (branches.filter (fun b => b ≠ DEFAULT_BRANCH))
      0 0 none ⟨c, hc, hcgt⟩
  refine ⟨b, hbmem, ?_, ?_⟩
  · unfold find_deepest_branch
    simp only [h1, h2, Bool.false_eq_true, if_false]
    exact hbeq
  · intro d hd
    have hnd := hbmax d hd
    unfold lexGt at hnd
    omega

/-- C1 counterexample: a single non-trunk candidate whose metrics are
`(0, 0)` (e.g. a candidate whose metric fetch failed).  The claim says
the resolver returns the candidate with the maximum commit count —
here `feature-a` — but the source's strict-improvement loop never
selects it and `find_deepest_branch` returns `none`. -/
theorem find_deepest_branch_zero_counterexample :
    find_deepest_branch (fun _ => (0, 0)) ["feature-a"] = none ∧
    ("feature-a" : String) ≠ DEFAULT_BRANCH ∧
    "feature-a" ∈
      (["feature-a"].filter (fun b => b ≠ DEFAULT_BRANCH)) := by
  refine ⟨by decide, by decide, by decide⟩

/-- Metrics of the spec's tie-break example: `feature-a ↦ (10, t1)`,
`feature-b ↦ (10, t2)` with `t2 > t1`. -/
def infoC1 : String → Nat × Nat := fun b =>
  if b = "feature-a" then (10, 1)
  else if b = "feature-b" then (10, 2)
  else (0, 0)

/-- Witness for C1's amended theorem at the spec's own example:
branches `main`, `feature-a`, `feature-b` with metrics `(10, 1)` and
`(10, 2)`. -/
theorem find_deepest_branch_lex_max_witness :
    (∃ c ∈ (["main", "feature-a", "feature-b"].filter
        (fun b => b ≠ DEFAULT_BRANCH)), lexGt (infoC1 c) (0, 0)) ∧
    (∃ b ∈ (["main", "feature-a", "feature-b"].filter
        (fun b => b ≠ DEFAULT_BRANCH)),
      find_deepest_branch infoC1 ["main", "feature-a", "feature-b"] = some b ∧
      ∀ c ∈ (["main", "feature-a", "feature-b"].filter
          (fun b => b ≠ DEFAULT_BRANCH)),
        (infoC1 c).1 ≤ (infoC1 b).1 ∧
        ((infoC1 c).1 = (infoC1 b).1 → (infoC1 c).2 ≤ (infoC1 b).2)) :=
  ⟨by decide,
   find_deepest_branch_lex_max infoC1 ["main", "feature-a", "feature-b"]
     (by decide)⟩

/-- The spec's tie-break example evaluated concretely: the resolver
picks `feature-b`. -/
theorem find_deepest_branch_tiebreak_example :
    find_deepest_branch infoC1 ["main", "feature-a", "feature-b"]
      = some "feature-b" := by
  decide

/-- Normalisation applied to one line of `git branch -a` output
(git.py lines 82-85). -/
def normLine (l : String) : String :=
  pyStrip (pyReplace (pyStrip l) "remotes/origin/" "")

theorem normLine_def (l : String) :
    pyStrip (pyReplace (pyStrip l) "remotes/origin/" "") = normLine l := rfl

theorem get_all_branches_loop_mem :
    ∀ (lines acc : List String) (b : String),
      b ∈ get_all_branches_loop lines acc ↔
        b ∈ acc ∨ (b ≠ "" ∧ ¬ pyStartsWith "HEAD" b ∧
          ∃ l ∈ lines, ¬ pyStartsWith "*" (pyStrip l) ∧ normLine l = b) := by
  intro lines
  induction lines with
  | nil => intro acc b; simp [get_all_branches_loop]
  | cons line rest ih =>
    intro acc b
    by_cases hc1 : pyStrip line ≠ "" ∧ ¬ pyStartsWith "*" (pyStrip line)
    · by_cases hc2 : normLine line ≠ "" ∧ normLine line ∉ acc ∧
          ¬ pyStartsWith "HEAD" (normLine line)
      · have hstep : get_all_branches_loop (line :: rest) acc
            = get_all_branches_loop rest (acc ++ [normLine line]) := by
          simp only [get_all_branches_loop]
          rw [if_pos hc1, normLine_def, if_pos hc2]
        rw [hstep, ih]
        constructor
        · rintro (hmem | ⟨hne, hhead, l, hl, hlstar, hleq⟩)
          · rcases List.mem_append.mp hmem with hacc | hbv
            · exact Or.inl hacc
            · have hb' : b = normLine line := by simpa using hbv
              subst hb'
              exact Or.inr ⟨hc2.1, hc2.2.2,
                line, List.mem_cons_self line rest, hc1.2, rfl⟩
          · exact Or.inr ⟨hne, hhead,
              l, List.mem_cons_of_mem line hl, hlstar, hleq⟩
        · rintro (hacc | ⟨hne, hhead, l, hl, hlstar, hleq⟩)
          · exact Or.inl (List.mem_append.mpr (Or.inl hacc))
          · rcases List.mem_cons.mp hl with rfl | hl'
            · subst hleq
              exact Or.inl (List.mem_append.mpr (Or.inr (by simp)))
            · exact Or.inr ⟨hne, hhead, l, hl', hlstar, hleq⟩
      · have hstep : get_all_branches_loop (line :: rest) acc
            = get_all_branches_loop rest acc := by
          simp only [get_all_branches_loop]
          rw [if_pos hc1, normLine_def, if_neg hc2]
        rw [hstep, ih]
        constructor
        · rintro (hacc | ⟨hne, hhead, l, hl, hlstar, hleq⟩)
          · exact Or.inl hacc
          · exact Or.inr ⟨hne, hhead,
              l, List.mem_cons_of_mem line hl, hlstar, hleq⟩
        · rintro (hacc | ⟨hne, hhead, l, hl, hlstar, hleq⟩)
          · exact Or.inl hacc
          · rcases List.mem_cons.mp hl with rfl | hl'
            · subst hleq
              push_neg at hc2
              rcases Classical.em (normLine l = "") with h0 | h0
              · exact absurd h0 hne
              · rcases Classical.em (normLine l ∈ acc) with h1 | h1
                · exact Or.inl h1
                · exact absurd (hc2 h0 h1) (by simpa using hhead)
            · exact Or.inr ⟨hne, hhead, l, hl', hlstar, hleq⟩
    · have hstep : get_all_branches_loop (line :: rest) acc
          = get_all_branches_loop rest acc := by
        simp only [get_all_branches_loop]
        rw [if_neg hc1]
      rw [hstep, ih]
      constructor
      · rintro (hacc | ⟨hne, hhead, l, hl, hlstar, hleq⟩)
        · exact Or.inl hacc
        · exact Or.inr ⟨hne, hhead,
            l, List.mem_cons_of_mem line hl, hlstar, hleq⟩
      · rintro (hacc | ⟨hne, hhead, l, hl, hlstar, hleq⟩)
        · exact Or.inl hacc
        · rcases List.mem_cons.mp hl with rfl | hl'
          · push_neg at hc1
            rcases Classical.em (pyStrip l = "") with h0 | h0
            · have hnl : normLine l = "" := by
                unfold normLine
                rw [h0]
                decide
              exact absurd (hnl ▸ hleq).symm hne
            · exact absurd (hc1 h0) hlstar
          · exact Or.inr ⟨hne, hhead, l, hl', hlstar, hleq⟩

theorem get_all_branches_loop_nodup :
    ∀ (lines acc : List String), acc.Nodup →
      (get_all_branches_loop lines acc).Nodup := by
  intro lines
  induction lines with
  | nil => intro acc h; simpa [get_all_branches_loop] using h
  | cons line rest ih =>
    intro acc hacc
    by_cases hc1 : pyStrip line ≠ "" ∧ ¬ pyStartsWith "*" (pyStrip line)
    · by_cases hc2 : normLine line ≠ "" ∧ normLine line ∉ acc ∧
          ¬ pyStartsWith "HEAD" (normLine line)
      · have hstep : get_all_branches_loop (line :: rest) acc
            = get_all_branches_loop rest (acc ++ [normLine line]) := by
          simp only [get_all_branches_loop]
          rw [if_pos hc1, normLine_def, if_pos hc2]
        rw [hstep]
        refine ih _ ?_
        rw [List.nodup_append]
        exact ⟨hacc, List.nodup_singleton _, by simpa using hc2.2.1⟩
      · have hstep : get_all_branches_loop (line :: rest) acc
            = get_all_branches_loop rest acc := by
          simp only [get_all_branches_loop]
          rw [if_pos hc1, normLine_def, if_neg hc2]
        rw [hstep]; exact ih acc hacc
    · have hstep : get_all_branches_loop (line :: rest) acc
          = get_all_branches_loop rest acc := by
        simp only [get_all_branches_loop]
        rw [if_neg hc1]
      rw [hstep]; exact ih acc hacc

/-- Every branch name returned by `get_all_branches` is non-empty
(needed because `get_target_branch` tests the resolver result with
Python truthiness). -/
theorem mem_get_all_branches_ne_empty (env : GitEnv) (b : String)
    (hb : b ∈ (get_all_branches env).1) : b ≠ "" := by
  unfold get_all_branches at hb
  by_cases hok : (runGit env branchACmd).1
  · rw [if_pos hok] at hb
    rcases (get_all_branches_loop_mem _ [] b).mp hb with h | ⟨hne, _, _⟩
    · simp at h
    · exact hne
  · rw [if_neg hok] at hb
    simp at hb

/-- C9 (amended): on a successful `git branch -a` listing,
`get_all_branches` returns exactly the normalized branch names of the
listing's lines — except lines marked with `*` (the current-branch
marker), which the source skips — where normalization strips the line,
deletes `remotes/origin/`, and strips again; empty results and names
beginning with `HEAD` are dropped and duplicates are removed. -/
theorem get_all_branches_characterization (env : GitEnv)
    (h : (runGit env branchACmd).1 = true) :
    (∀ b, b ∈ (get_all_branches env).1 ↔
      (b ≠ "" ∧ ¬ pyStartsWith "HEAD" b ∧
        ∃ l ∈ pySplitNl (runGit env branchACmd).2.1,
          ¬ pyStartsWith "*" (pyStrip l) ∧ normLine l = b)) ∧
    (get_all_branches env).1.Nodup := by
  constructor
  · intro b
    unfold get_all_branches
    rw [if_pos h]
    rw [get_all_branches_loop_mem]
    simp
  · unfold get_all_branches
    rw [if_pos h]
    exact get_all_branches_loop_nodup _ [] List.nodup_nil

/-- Environment of a repository whose `git branch -a` output lists the
checked-out local branch `main` (starred line) and a second local
branch `dev`. -/
def envC9 : GitEnv :=
  { isRepo := true
    raw := fun cmd =>
      if cmd = branchACmd then .completed 0 "* main\n  dev" ""
      else .raised "unexpected command" }

/-- C9 counterexample: the listing contains the local branch `main`
(the starred current-branch line), but `get_all_branches` drops it:
the claim's "every local branch name in the listing" fails. -/
theorem get_all_branches_counterexample :
    (runGit envC9 branchACmd).1 = true ∧
    pySplitNl (runGit envC9 branchACmd).2.1 = ["* main", "  dev"] ∧
    (get_all_branches envC9).1 = ["dev"] ∧
    "main" ∉ (get_all_branches envC9).1 := by
  refine ⟨by decide, by decide, by decide, by decide⟩

/-- Witness for C9's amended theorem at the concrete listing
`"* main\n  dev"`. -/
theorem get_all_branches_characterization_witness :
    ((runGit envC9 branchACmd).1 = true) ∧
    ((∀ b, b ∈ (get_all_branches envC9).1 ↔
      (b ≠ "" ∧ ¬ pyStartsWith "HEAD" b ∧
        ∃ l ∈ pySplitNl (runGit envC9 branchACmd).2.1,
          ¬ pyStartsWith "*" (pyStrip l) ∧ normLine l = b)) ∧
    (get_all_branches envC9).1.Nodup) :=
  ⟨by decide, get_all_branches_characterization envC9 (by decide)⟩

/-- When every non-trunk candidate scores lexicographically at or below
`(0, 0)`, the strict-improvement loop never selects anything and
`find_deepest_branch` returns `none`. -/
theorem find_deepest_branch_none_of_all_zero (info : String → Nat × Nat)
    (branches : List String)
    (h : ∀ c ∈ branches.filter (fun b => b ≠ DEFAULT_BRANCH),
           ¬ lexGt (info c) (0, 0)) :
    find_deepest_branch info branches = none := by
  unfold find_deepest_branch
  by_cases h1 : branches.isEmpty
  · rw [if_pos h1]
  · rw [if_neg h1]
    by_cases h2 : (branches.filter (fun b => b ≠ DEFAULT_BRANCH)).isEmpty
    · rw [if_pos h2]
    · rw [if_neg h2]
      exact find_deepest_loop_none info _ 0 0 none h

/-- C2 (amended): when at least one non-trunk candidate scores strictly
above `(0, 0)` in the lexicographic commit-count/recency order,
`get_target_branch` returns one of the non-trunk candidates (a winner
of the scoring); when no non-trunk candidate exists, or every candidate
scores `(0, 0)`-or-below (e.g. every metric fetch failed),
it returns the development branch `dev`.  (The original claim — that
*any* non-empty candidate set yields a candidate — fails: see the
counterexample, where the only candidate is scored `(0, 0)` and `dev`
is returned instead.) -/
theorem get_target_branch_spec (env : GitEnv) :
    ((∃ c ∈ (get_all_branches env).1.filter (fun b => b ≠ DEFAULT_BRANCH),
        lexGt (branchInfo env c) (0, 0)) →
      (get_target_branch env).1 ∈
        (get_all_branches env).1.filter (fun b => b ≠ DEFAULT_BRANCH) ∧
      ∀ c ∈ (get_all_branches env).1.filter (fun b => b ≠ DEFAULT_BRANCH),
        ¬ lexGt (branchInfo env c) (branchInfo env (get_target_branch env).1)) ∧
    ((∀ c ∈ (get_all_branches env).1.filter (fun b => b ≠ DEFAULT_BRANCH),
        ¬ lexGt (branchInfo env c) (0, 0)) →
      (get_target_branch env).1 = DEV_BRANCH) := by
  constructor
  · intro h
    obtain ⟨c, hc, hcgt⟩ := h
    have h1 : (get_all_branches env).1.isEmpty = false := by
      cases hb : (get_all_branches env).1 with
      | nil => rw [hb] at hc; simp at hc
      | cons x xs => rfl
    have h2 : ((get_all_branches env).1.filter
        (fun b => b ≠ DEFAULT_BRANCH)).isEmpty = false := by
      cases hf : (get_all_branches env).1.filter (fun b => b ≠ DEFAULT_BRANCH) with
      | nil => rw [hf] at hc; simp at hc
      | cons x xs => rfl
    obtain ⟨b, hbmem, hbeq, _, hbmax⟩ :=
      find_deepest_loop_wins (branchInfo env)
        ((get_all_branches env).1.filter (fun b => b ≠ DEFAULT_BRANCH))
        0 0 none ⟨c, hc, hcgt⟩
    have hdeep : find_deepest_branch (branchInfo env)
        (get_all_branches env).1 = some b := by
      unfold find_deepest_branch
      simp only [h1, h2, Bool.false_eq_true, if_false]
      exact hbeq
    have hbne : b ≠ "" :=
      mem_get_all_branches_ne_empty env b (List.mem_of_mem_filter hbmem)
    have htgt : (get_target_branch env).1 = b := by
      unfold get_target_branch
      simp only [hdeep]
      rw [if_pos hbne]
    rw [htgt]
    exact ⟨hbmem, hbmax⟩
  · intro h
    have hdeep : find_deepest_branch (branchInfo env)
        (get_all_branches env).1 = none :=
      find_deepest_branch_none_of_all_zero (branchInfo env)
        (get_all_branches env).1 h
    unfold get_target_branch
    simp only [hdeep]

/-- Environment of a repository with one non-trunk candidate
`feature-x` whose metric fetches fail (scored `(0, 0)`). -/
def envC2 : GitEnv :=
  { isRepo := true
    raw := fun cmd =>
      if cmd = branchACmd then .completed 0 "  feature-x" ""
      else .raised "boom" }

/-- C2 counterexample: the candidate set is the non-empty
`["feature-x"]`, yet `get_target_branch` returns `dev`, which is not a
candidate — the claim's "whenever at least one non-trunk candidate
branch exists, get_target_branch returns one of those candidates"
fails when every candidate is scored `(0, 0)`. -/
theorem get_target_branch_counterexample :
    (get_all_branches envC2).1.filter (fun b => b ≠ DEFAULT_BRANCH)
      = ["feature-x"] ∧
    (get_target_branch envC2).1 = DEV_BRANCH ∧
    (get_target_branch envC2).1 ∉
      (get_all_branches envC2).1.filter (fun b => b ≠ DEFAULT_BRANCH) := by
  refine ⟨by decide, by decide, by decide⟩

/-- Environment of a repository with one non-trunk candidate
`feature-a` with 5 commits, last commit at Unix time 100. -/
def envC2b : GitEnv :=
  { isRepo := true
    raw := fun cmd =>
      if cmd = branchACmd then .completed 0 "  feature-a" ""
      else if cmd = revListCmd "feature-a" then .completed 0 "5" ""
      else if cmd = logCmd "feature-a" then .completed 0 "100" ""
      else .raised "boom" }

/-- Witness for C2's amended theorem: in `envC2b` a positively scored
candidate exists and is returned; in `envC2` every candidate scores
`(0, 0)` and `dev` is returned. -/
theorem get_target_branch_spec_witness :
    ((∃ c ∈ (get_all_branches envC2b).1.filter (fun b => b ≠ DEFAULT_BRANCH),
        lexGt (branchInfo envC2b c) (0, 0)) ∧
      ((get_target_branch envC2b).1 ∈
        (get_all_branches envC2b).1.filter (fun b => b ≠ DEFAULT_BRANCH) ∧
      ∀ c ∈ (get_all_branches envC2b).1.filter (fun b => b ≠ DEFAULT_BRANCH),
        ¬ lexGt (branchInfo envC2b c)
          (branchInfo envC2b (get_target_branch envC2b).1))) ∧
    ((∀ c ∈ (get_all_branches envC2).1.filter (fun b => b ≠ DEFAULT_BRANCH),
        ¬ lexGt (branchInfo envC2 c) (0, 0)) ∧
      (get_target_branch envC2).1 = DEV_BRANCH) :=
  ⟨⟨by decide, (get_target_branch_spec envC2b).1 (by decide)⟩,
   ⟨by decide, (get_target_branch_spec envC2).2 (by decide)⟩⟩

/-- C7: `run_git_command` is a total function into result triples: the
success flag is `true` exactly for a completed process with exit code
0 (so any non-zero exit reports failure), and every raised exception
(spawn error, timeout, ...) is converted into the returned data
`(false, "", message)`. -/
theorem run_git_command_total_spec (o : SubprocessOutcome) :
    ((run_git_command o).1 = true ↔ ∃ out err, o = .completed 0 out err) ∧
    (∀ m, o = .raised m → run_git_command o = (false, "", m)) := by
  constructor
  · cases o with
    | completed rc out err =>
      simp only [run_git_command, beq_iff_eq]
      constructor
      · intro h
        exact ⟨out, err, by rw [h]⟩
      · rintro ⟨out', err', heq⟩
        cases heq
        rfl
    | raised m =>
      simp [run_git_command]
  · intro m hm
    subst hm
    rfl

/-- Witness for C7 at a raised (e.g. timed-out) subprocess call. -/
theorem run_git_command_total_spec_witness :
    SubprocessOutcome.raised "timeout" = SubprocessOutcome.raised "timeout" ∧
    run_git_command (.raised "timeout") = (false, "", "timeout") :=
  ⟨rfl, (run_git_command_total_spec (.raised "timeout")).2 "timeout" rfl⟩

/-- C8: `checkout_or_create_branch` issues the checkout command exactly
once and at most one create-and-checkout command; the creation attempt
happens if and only if the checkout attempt failed with a
missing-branch error on stderr; and the call succeeds exactly when the
checkout attempt succeeded or the (performed) creation attempt
succeeded. -/
theorem checkout_or_create_branch_spec (env : GitEnv) (branch : String) :
    ((checkout_or_create_branch env branch).2 = [checkoutCmd branch] ∨
     (checkout_or_create_branch env branch).2
        = [checkoutCmd branch, checkoutCreateCmd branch]) ∧
    ((checkout_or_create_branch env branch).2
        = [checkoutCmd branch, checkoutCreateCmd branch] ↔
      ((runGit env (checkoutCmd branch)).1 = false ∧
       branch_missing_error (runGit env (checkoutCmd branch)).2.2 = true)) ∧
    ((checkout_or_create_branch env branch).1 = true ↔
      ((runGit env (checkoutCmd branch)).1 = true ∨
       (branch_missing_error (runGit env (checkoutCmd branch)).2.2 = true ∧
        (runGit env (checkoutCreateCmd branch)).1 = true))) := by
  cases h1 : (runGit env (checkoutCmd branch)).1 with
  | true =>
    simp [checkout_or_create_branch, h1]
  | false =>
    cases h2 : branch_missing_error (runGit env (checkoutCmd branch)).2.2 with
    | true =>
      simp [checkout_or_create_branch, h1, h2]
    | false =>
      simp [checkout_or_create_branch, h1, h2]

/-- C3: once the commit action reaches the push step — the root is a
repository, the status query succeeded with a dirty tree, and
checkout, stage-all and local commit all succeeded —
`commit_and_push_changes` returns `True` whatever the push outcome:
the environment is unconstrained on the push command, so a failing
push cannot flip the result. -/
theorem commit_and_push_changes_push_immune (env : GitEnv) (msg : String)
    (hrepo : env.isRepo = true)
    (hst : (runGit env statusCmd).1 = true)
    (hdirty : pyStrip (runGit env statusCmd).2.1 ≠ "")
    (hco : (checkout_or_create_branch env (get_target_branch env).1).1 = true)
    (hadd : (runGit env addCmd).1 = true)
    (hcommit : (runGit env (commitCmd msg)).1 = true) :
    (commit_and_push_changes env msg).1 = true := by
  simp only [commit_and_push_changes]
  rw [if_neg (by simp [hrepo]), if_neg (by simp [hst]), if_neg hdirty,
    if_neg (by simp [hco]), if_neg (by simp [hadd]),
    if_neg (by simp [hcommit])]

/-- Environment of a dirty repository where every commit-path git
command succeeds except the final push, which exits non-zero. -/
def envC3 : GitEnv :=
  { isRepo := true
    raw := fun cmd =>
      if cmd = statusCmd then .completed 0 " M Assets/Scene.unity" ""
      else if cmd = branchACmd then .completed 0 "  dev" ""
      else if cmd = revListCmd "dev" then .completed 0 "3" ""
      else if cmd = logCmd "dev" then .completed 0 "50" ""
      else if cmd = checkoutCmd "dev" then .completed 0 "Switched" ""
      else if cmd = addCmd then .completed 0 "" ""
      else if cmd = commitCmd "m" then .completed 0 "1 file changed" ""
      else if cmd = pushCmd "dev" then
        .completed 128 "" "fatal: no configured push destination"
      else .raised "unexpected command" }

/-- Witness for C3: in `envC3` the push command fails, yet the commit
action reports overall success. -/
theorem commit_and_push_changes_push_immune_witness :
    (envC3.isRepo = true ∧
     (runGit envC3 statusCmd).1 = true ∧
     pyStrip (runGit envC3 statusCmd).2.1 ≠ "" ∧
     (checkout_or_create_branch envC3 (get_target_branch envC3).1).1 = true ∧
     (runGit envC3 addCmd).1 = true ∧
     (runGit envC3 (commitCmd "m")).1 = true ∧
     (runGit envC3 (pushCmd (get_target_branch envC3).1)).1 = false) ∧
    (commit_and_push_changes envC3 "m").1 = true :=
  ⟨⟨by decide, by decide, by decide, by decide, by decide, by decide,
    by decide⟩,
   commit_and_push_changes_push_immune envC3 "m" (by decide) (by decide)
     (by decide) (by decide) (by decide) (by decide)⟩

/-- C4: on a repository whose status query succeeds with an empty
(stripped) output — a clean working tree — `commit_and_push_changes`
returns `True` and its command trace is exactly the status query:
no branch-resolution, checkout, add, commit or push command is
issued. -/
theorem commit_and_push_changes_clean_noop (env : GitEnv) (msg : String)
    (hrepo : env.isRepo = true)
    (hst : (runGit env statusCmd).1 = true)
    (hclean : pyStrip (runGit env statusCmd).2.1 = "") :
    commit_and_push_changes env msg = (true, [statusCmd]) := by
  simp only [commit_and_push_changes]
  rw [if_neg (by simp [hrepo]), if_neg (by simp [hst]), if_pos hclean]

/-- Environment of a clean repository: the status query succeeds with
empty output and every other git command would raise. -/
def envC4 : GitEnv :=
  { isRepo := true
    raw := fun cmd =>
      if cmd = statusCmd then .completed 0 "" ""
      else .raised "no further git command may run" }

/-- Witness for C4 at the clean repository `envC4`. -/
theorem commit_and_push_changes_clean_noop_witness :
    (envC4.isRepo = true ∧
     (runGit envC4 statusCmd).1 = true ∧
     pyStrip (runGit envC4 statusCmd).2.1 = "") ∧
    commit_and_push_changes envC4 "msg" = (true, [statusCmd]) :=
  ⟨⟨by decide, by decide, by decide⟩,
   commit_and_push_changes_clean_noop envC4 "msg" (by decide) (by decide)
     (by decide)⟩

theorem range_map_add_succ (k n : Nat) :
    (List.range (n + 1)).map (fun j => k + j)
      = k :: (List.range n).map (fun j => (k + 1) + j) := by
  rw [List.range_succ_eq_map]
  simp only [List.map_cons, List.map_map, Nat.add_zero]
  refine congrArg (k :: ·) ?_
  exact List.map_congr_left (fun a _ => by simp [Function.comp]; omega)

theorem run_workflow_steps_ind (res : Nat → Bool) :
    ∀ (steps : List ActionType) (k : Nat),
      ((run_workflow_steps res steps k).1 = true ↔
        ∀ i, i < steps.length → res (k + i) = true) ∧
      (∀ i, i < steps.length → res (k + i) = false →
        (∀ j, j < i → res (k + j) = true) →
        (run_workflow_steps res steps k).1 = false ∧
        (run_workflow_steps res steps k).2
          = (List.range (i + 1)).map (fun j => k + j)) ∧
      ((∀ i, i < steps.length → res (k + i) = true) →
        (run_workflow_steps res steps k).2
          = (List.range steps.length).map (fun j => k + j)) := by
  intro steps
  induction steps with
  | nil =>
    intro k
    refine ⟨by simp [run_workflow_steps], ?_, by simp [run_workflow_steps]⟩
    intro i hi
    simp at hi
  | cons a rest ih =>
    intro k
    refine ⟨?_, ?_, ?_⟩
    · cases hk : res k with
      | true =>
        have hrw : run_workflow_steps res (a :: rest) k
            = ((run_workflow_steps res rest (k + 1)).1,
               k :: (run_workflow_steps res rest (k + 1)).2) := by
          simp only [run_workflow_steps]
          rw [if_pos hk]
        rw [hrw]
        rw [show ((run_workflow_steps res rest (k + 1)).1,
            k :: (run_workflow_steps res rest (k + 1)).2).1
            = (run_workflow_steps res rest (k + 1)).1 from rfl]
        rw [(ih (k + 1)).1]
        constructor
        · intro h i hi
          cases i with
          | zero => simpa using hk
          | succ i' =>
            have := h i' (by simpa using Nat.lt_of_succ_lt_succ hi)
            rw [show k + (i' + 1) = k + 1 + i' by omega]
            exact this
        · intro h i hi
          have := h (i + 1) (by simpa using Nat.succ_lt_succ hi)
          rw [show k + 1 + i = k + (i + 1) by omega]
          exact this
      | false =>
        have hrw : run_workflow_steps res (a :: rest) k = (false, [k]) := by
          simp only [run_workflow_steps]
          rw [if_neg (by simp [hk])]
        rw [hrw]
        simp only [Bool.false_eq_true, false_iff]
        intro h
        have := h 0 (by simp)
        rw [Nat.add_zero] at this
        rw [hk] at this
        exact absurd this (by simp)
    · intro i hi hfail hbefore
      cases i with
      | zero =>
        rw [Nat.add_zero] at hfail
        have hrw : run_workflow_steps res (a :: rest) k = (false, [k]) := by
          simp only [run_workflow_steps]
          rw [if_neg (by simp [hfail])]
        rw [hrw]
        exact ⟨rfl, by rw [show List.range 1 = [0] from rfl]; simp⟩
      | succ i' =>
        have hk : res k = true := by
          have := hbefore 0 (Nat.succ_pos i')
          rwa [Nat.add_zero] at this
        have hrw : run_workflow_steps res (a :: rest) k
            = ((run_workflow_steps res rest (k + 1)).1,
               k :: (run_workflow_steps res rest (k + 1)).2) := by
          simp only [run_workflow_steps]
          rw [if_pos hk]
        have hfail' : res (k + 1 + i') = false := by
          rw [show k + 1 + i' = k + (i' + 1) by omega]
          exact hfail
        have hbefore' : ∀ j, j < i' → res (k + 1 + j) = true := by
          intro j hj
          rw [show k + 1 + j = k + (j + 1) by omega]
          exact hbefore (j + 1) (Nat.succ_lt_succ hj)
        obtain ⟨hf, htr⟩ := (ih (k + 1)).2.1 i'
          (by simpa using Nat.lt_of_succ_lt_succ hi) hfail' hbefore'
        rw [hrw]
        refine ⟨hf, ?_⟩
        rw [show ((run_workflow_steps res rest (k + 1)).1,
            k :: (run_workflow_steps res rest (k + 1)).2).2
            = k :: (run_workflow_steps res rest (k + 1)).2 from rfl]
        rw [htr, range_map_add_succ k (i' + 1)]
    · intro h
      have hk : res k = true := by
        have := h 0 (by simp)
        rwa [Nat.add_zero] at this
      have hrw : run_workflow_steps res (a :: rest) k
          = ((run_workflow_steps res rest (k + 1)).1,
             k :: (run_workflow_steps res rest (k + 1)).2) := by
        simp only [run_workflow_steps]
        rw [if_pos hk]
      rw [hrw]
      have h' : ∀ i, i < rest.length → res (k + 1 + i) = true := by
        intro i hi
        rw [show k + 1 + i = k + (i + 1) by omega]
        exact h (i + 1) (by simpa using Nat.succ_lt_succ hi)
      have := (ih (k + 1)).2.2 h'
      rw [show ((run_workflow_steps res rest (k + 1)).1,
          k :: (run_workflow_steps res rest (k + 1)).2).2
          = k :: (run_workflow_steps res rest (k + 1)).2 from rfl]
      rw [this]
      rw [show (a :: rest).length = rest.length + 1 from rfl]
      rw [range_map_add_succ k rest.length]

/-- C5: the workflow engine runs the steps of any fixed action list in
list order: the overall result is `True` iff every step's aggregate
result is success; and if step `i` is the first failing step, the run
returns `False` having executed exactly the steps `0..i` — no later
step is ever executed. -/
theorem workflow_engine_halts (res : Nat → Bool) (steps : List ActionType) :
    ((run_workflow_steps res steps 0).1 = true ↔
      ∀ i, i < steps.length → res i = true) ∧
    (∀ i, i < steps.length → res i = false →
      (∀ j, j < i → res j = true) →
      (run_workflow_steps res steps 0).1 = false ∧
      (run_workflow_steps res steps 0).2 = List.range (i + 1)) ∧
    ((∀ i, i < steps.length → res i = true) →
      (run_workflow_steps res steps 0).2 = List.range steps.length) := by
  have hmap : ∀ n, (List.range n).map (fun j => 0 + j) = List.range n := by
    intro n
    refine (List.map_congr_left (fun a _ => Nat.zero_add a)).trans
      (List.map_id _)
  obtain ⟨ha, hb, hc⟩ := run_workflow_steps_ind res steps 0
  refine ⟨?_, ?_, ?_⟩
  · rw [ha]
    constructor
    · intro h i hi
      have := h i hi
      rwa [Nat.zero_add] at this
    · intro h i hi
      rw [Nat.zero_add]
      exact h i hi
  · intro i hi hfail hbefore
    obtain ⟨hf, htr⟩ := hb i hi (by rwa [Nat.zero_add])
      (fun j hj => by rw [Nat.zero_add]; exact hbefore j hj)
    exact ⟨hf, by rwa [hmap] at htr⟩
  · intro h
    have := hc (fun i hi => by rw [Nat.zero_add]; exact h i hi)
    rwa [hmap] at this

/-- Per-step aggregate results in which step 1 (the second step) fails
and all others succeed. -/
def resC5 : Nat → Bool := fun i => i != 1

/-- Witness for C5 on the six-step full-automation workflow with its
second step failing: the run fails and exactly steps 0 and 1 were
executed. -/
theorem workflow_engine_halts_witness :
    (1 < full_automation_actions.length ∧ resC5 1 = false ∧
      (∀ j, j < 1 → resC5 j = true)) ∧
    ((run_workflow_steps resC5 full_automation_actions 0).1 = false ∧
     (run_workflow_steps resC5 full_automation_actions 0).2
        = List.range 2) :=
  ⟨⟨by decide, by decide, by decide⟩,
   (workflow_engine_halts resC5 full_automation_actions).2.1 1 (by decide)
     (by decide) (by decide)⟩

theorem execute_sequential_iff {α : Type} (act : α → Option Bool)
    (projects : List α) :
    execute_sequential act projects = true ↔
      ∀ p ∈ projects, execute_single_action act p = true := by
  unfold execute_sequential
  rw [beq_iff_eq]
  exact List.countP_eq_length

theorem execute_parallel_eq_sequential {α : Type} (act : α → Option Bool)
    (completed projects : List α) (hperm : completed.Perm projects) :
    execute_parallel act completed projects
      = execute_sequential act projects := by
  unfold execute_parallel execute_sequential
  rw [hperm.countP_eq]

/-- C6: for any per-project unit of work (possibly raising, modelled by
`none`), the sequential strategy and the parallel strategy — run over
any completion order of the projects — agree, succeed exactly when
every per-project execution succeeded, and record one outcome per
submitted project. -/
theorem strategies_aggregate_spec {α : Type} (act : α → Option Bool)
    (projects completed : List α) (hperm : completed.Perm projects) :
    (execute_sequential act projects = true ↔
      ∀ p ∈ projects, execute_single_action act p = true) ∧
    (execute_parallel act completed projects = true ↔
      ∀ p ∈ projects, execute_single_action act p = true) ∧
    (projects.map (execute_single_action act)).length = projects.length ∧
    (completed.map (execute_single_action act)).length = projects.length := by
  refine ⟨execute_sequential_iff act projects, ?_, by simp, ?_⟩
  · rw [execute_parallel_eq_sequential act completed projects hperm]
    exact execute_sequential_iff act projects
  · simp [hperm.length_eq]

/-- Unit of work for the C6 witness: project 3 raises, the rest
succeed. -/
def actC6 : Nat → Option Bool := fun p => if p = 3 then none else some true

/-- Witness for C6 on projects `[1, 2, 3]` consumed in completion order
`[2, 1, 3]`, where project 3's unit raises. -/
theorem strategies_aggregate_spec_witness :
    ([2, 1, 3] : List Nat).Perm [1, 2, 3] ∧
    ((execute_sequential actC6 [1, 2, 3] = true ↔
      ∀ p ∈ [1, 2, 3], execute_single_action actC6 p = true) ∧
    (execute_parallel actC6 [2, 1, 3] [1, 2, 3] = true ↔
      ∀ p ∈ [1, 2, 3], execute_single_action actC6 p = true) ∧
    (([1, 2, 3] : List Nat).map (execute_single_action actC6)).length
        = ([1, 2, 3] : List Nat).length ∧
    (([2, 1, 3] : List Nat).map (execute_single_action actC6)).length
        = ([1, 2, 3] : List Nat).length) :=
  ⟨by decide, strategies_aggregate_spec actC6 [1, 2, 3] [2, 1, 3] (by decide)⟩

/-- C10: `execute_action` drops the paths that fail project validation
(existing root with `Assets` and `ProjectSettings`) and computes its
result over the valid subset only — so a mixed valid/invalid batch can
still succeed; an empty input list, or one with no valid project,
yields `False` (for every action oracle, i.e. without running the
action). -/
theorem execute_action_validation (fs : String → Bool)
    (act : String → Option Bool) (sched : List String → List String)
    (projects : List String) (parallel : Bool)
    (hs : ∀ l, (sched l).Perm l) :
    (projects = [] → execute_action fs act sched projects parallel = false) ∧
    (projects.filter (is_valid fs) = [] →
      execute_action fs act sched projects parallel = false) ∧
    (execute_action fs act sched projects parallel = true ↔
      (projects.filter (is_valid fs) ≠ [] ∧
        ∀ p ∈ projects.filter (is_valid fs),
          execute_single_action act p = true)) := by
  refine ⟨?_, ?_, ?_⟩
  · intro h
    subst h
    rfl
  · intro hf
    unfold execute_action
    by_cases h0 : projects.isEmpty
    · rw [if_pos h0]
    · rw [if_neg h0]
      rw [if_pos (by simp [hf])]
  · unfold execute_action
    by_cases h0 : projects.isEmpty
    · have : projects = [] := by
        cases projects with
        | nil => rfl
        | cons x xs => simp at h0
      subst this
      simp
    · rw [if_neg h0]
      by_cases h1 : (projects.filter (is_valid fs)).isEmpty
      · rw [if_pos h1]
        have : projects.filter (is_valid fs) = [] := by
          cases hf : projects.filter (is_valid fs) with
          | nil => rfl
          | cons x xs => rw [hf] at h1; simp at h1
        simp [this]
      · rw [if_neg h1]
        have hne : projects.filter (is_valid fs) ≠ [] := by
          intro hnil
          rw [hnil] at h1
          simp at h1
        by_cases h2 : parallel && (projects.filter (is_valid fs)).length > 1
        · rw [if_pos h2]
          rw [execute_parallel_eq_sequential act _ _
            (hs (projects.filter (is_valid fs)))]
          rw [execute_sequential_iff]
          simp [hne]
        · rw [if_neg h2]
          rw [execute_sequential_iff]
          simp [hne]

/-- Filesystem for the C10 witness: only `/a` is a valid project
root. -/
def fsC10 : String → Bool := fun s =>
  s == "/a" || s == "/a/Assets" || s == "/a/ProjectSettings"

/-- Unit of work for the C10 witness: every project succeeds. -/
def actC10 : String → Option Bool := fun _ => some true

/-- Witness for C10: the batch `["/a", "/b"]` mixes a valid and an
invalid path, yet `execute_action` returns `True`, computed over the
valid subset `["/a"]` alone. -/
theorem execute_action_validation_witness :
    (["/a", "/b"].filter (is_valid fsC10) = ["/a"]) ∧
    execute_action fsC10 actC10 (fun l => l) ["/a", "/b"] false = true :=
  ⟨by decide,
   (execute_action_validation fsC10 actC10 (fun l => l) ["/a", "/b"] false
     (fun l => List.Perm.refl l)).2.2.mpr ⟨by decide, by decide⟩⟩
